import Mathlib

/-!
Shallow embedding of the catalyst repository core
(src/catalyst/core/inventory.py and src/catalyst/core/executor.py).

Python dictionaries are modelled as association lists in insertion order
(`dictLookup` / `dictInsert`), matching dict semantics: assignment to an
existing key updates the value in place, assignment to a fresh key appends.
`Except String` models raising an exception carrying a message:
`InventoryError` for the inventory and `ExecutionError` for the executor.
-/

namespace Catalyst

/-- Lookup in a Python-dict model: first (and only, keys being unique in a
dict) pair with the given key. -/
def dictLookup {α : Type} : List (String × α) → String → Option α
  | [], _ => none
  | (k', v) :: rest, k => if k' = k then some v else dictLookup rest k

/-- Python `key in dict`. -/
def dictContains {α : Type} (l : List (String × α)) (k : String) : Bool :=
  (dictLookup l k).isSome

/-- Python `dict[key] = value`: update in place if the key is present,
append otherwise. -/
def dictInsert {α : Type} : List (String × α) → String → α → List (String × α)
  | [], k, v => [(k, v)]
  | (k', v') :: rest, k, v =>
      if k' = k then (k', v) :: rest else (k', v') :: dictInsert rest k v

/-- Host record (class `Host` of inventory.py). `variables` is an
uninterpreted metadata bag; its values are modelled as strings. -/
structure Host where
  hostname : String
  username : String
  password : Option String
  key_file : Option String
  port : Nat
  groups : List String
  vars : List (String × String)
deriving DecidableEq, Repr

/-- One `hosts:` entry of the YAML document, before validation: every field
optional, the way a parsed YAML mapping presents them. -/
structure HostData where
  hostname : Option String
  username : Option String
  password : Option String
  key_file : Option String
  port : Option Nat
  groups : Option (List String)
  vars : Option (List (String × String))
deriving DecidableEq, Repr

/-- One `groups:` entry of the YAML document: the code only reads
`group_data.get('hosts', [])`. -/
structure GroupData where
  hosts : Option (List String)
deriving DecidableEq, Repr

/-- A parsed YAML inventory document: top-level keys `hosts` and `groups`,
each optional (`data.get(..., {})`). -/
structure Document where
  hosts : Option (List (String × HostData))
  groups : Option (List (String × GroupData))
deriving DecidableEq, Repr

/-- `Host.from_dict`: `data['hostname']` and `data['username']` raise
KeyError when absent (modelled as `.error`); the optional fields default via
`data.get` (and `groups or []`, `variables or {}` in `__init__`). -/
def Host.from_dict (data : HostData) : Except String Host :=
  match data.hostname, data.username with
  | some hn, some un =>
      .ok { hostname := hn
            username := un
            password := data.password
            key_file := data.key_file
            port := data.port.getD 22
            groups := data.groups.getD []
            vars := data.vars.getD [] }
  | _, _ => .error "KeyError"

/-- The `Inventory` state: `hosts` maps host name to Host, `groups` maps
group name to the list of member host names, both in insertion order. -/
structure Inventory where
  hosts : List (String × Host)
  groups : List (String × List String)
deriving DecidableEq, Repr

/-- `Inventory.__init__`: empty maps. -/
def Inventory.empty : Inventory := { hosts := [], groups := [] }

/-- One iteration of the group-registration loop of `add_host`:
ensure the group key exists, then append the host name if absent. -/
def registerGroup (name : String) (gs : List (String × List String))
    (group : String) : List (String × List String) :=
  let gs1 := if dictContains gs group then gs else dictInsert gs group []
  let cur := (dictLookup gs1 group).getD []
  if name ∈ cur then gs1 else dictInsert gs1 group (cur ++ [name])

/-- `Inventory.add_host`: store the host, then register each of its groups
in the group index. -/
def Inventory.add_host (inv : Inventory) (name : String) (host : Host) :
    Inventory :=
  { hosts := dictInsert inv.hosts name host
    groups := host.groups.foldl (registerGroup name) inv.groups }

/-- `Inventory.get_host`: raise `InventoryError` when the name is absent. -/
def Inventory.get_host (inv : Inventory) (name : String) :
    Except String Host :=
  match dictLookup inv.hosts name with
  | none => .error ("Host not found: " ++ name)
  | some h => .ok h

/-- The list comprehension `[self.hosts[host] for host in ...]`: a missing
host name raises (KeyError), modelled as `.error`. -/
def lookupAll (hosts : List (String × Host)) : List String →
    Except String (List Host)
  | [] => .ok []
  | n :: rest =>
      match dictLookup hosts n with
      | none => .error ("KeyError: " ++ n)
      | some h =>
          match lookupAll hosts rest with
          | .ok l => .ok (h :: l)
          | .error e => .error e

/-- `Inventory.get_group_hosts`: raise `InventoryError` when the group is
absent, otherwise resolve each member name. -/
def Inventory.get_group_hosts (inv : Inventory) (group : String) :
    Except String (List Host) :=
  match dictLookup inv.groups group with
  | none => .error ("Group not found: " ++ group)
  | some ns => lookupAll inv.hosts ns

/-- The body of the `for host_name in group_data.get('hosts', [])` loop in
`from_yaml`: if the host exists and does not already carry the group, append
the group to the host's own list and the host to the group index. -/
def processGroupHost (inv : Inventory) (group_name host_name : String) :
    Inventory :=
  match dictLookup inv.hosts host_name with
  | none => inv
  | some host =>
      if group_name ∈ host.groups then inv
      else
        let host' := { host with groups := host.groups ++ [group_name] }
        let gs1 := if dictContains inv.groups group_name then inv.groups
                   else dictInsert inv.groups group_name []
        let cur := (dictLookup gs1 group_name).getD []
        { hosts := dictInsert inv.hosts host_name host'
          groups := dictInsert gs1 group_name (cur ++ [host_name]) }

/-- The `for name, host_data in hosts_data.items()` loop of `from_yaml`:
build each host (which may raise) and add it. -/
def loadHosts : List (String × HostData) → Inventory →
    Except String Inventory
  | [], inv => .ok inv
  | (name, hd) :: rest, inv =>
      match Host.from_dict hd with
      | .error e => .error e
      | .ok host => loadHosts rest (inv.add_host name host)

/-- The `for group_name, group_data in groups_data.items()` loop of
`from_yaml`. -/
def processGroups : List (String × GroupData) → Inventory → Inventory
  | [], inv => inv
  | (gname, gd) :: rest, inv =>
      processGroups rest
        ((gd.hosts.getD []).foldl (fun i hn => processGroupHost i gname hn) inv)

/-- `Inventory.from_yaml` on an already-parsed document: process hosts, then
groups; any exception in host processing is re-raised as `InventoryError`. -/
def Inventory.from_yaml (doc : Document) : Except String Inventory :=
  match loadHosts (doc.hosts.getD []) Inventory.empty with
  | .error e => .error ("Failed to load inventory: " ++ e)
  | .ok inv => .ok (processGroups (doc.groups.getD []) inv)

/-- Levels of the logging calls the executor makes. -/
inductive LogLevel
  | debug
  | info
  | warning
  | error
deriving DecidableEq, Repr

/-- One emitted log line. -/
structure LogEvent where
  level : LogLevel
  msg : String
deriving DecidableEq, Repr

/-- The result triple paramiko hands back for one command, after the streams
have been read and decoded. -/
structure RawResult where
  stdout : String
  stderr : String
  status : Int
deriving DecidableEq, Repr

/-- The keyword arguments `connect` builds for `client.connect`; `password`
and `key_filename` are present only when the corresponding field is
truthy. -/
structure ConnectKwargs where
  hostname : String
  username : String
  port : Nat
  timeout : Nat
  password : Option String
  key_filename : Option String
deriving DecidableEq, Repr

/-- Python truthiness of an optional string: `None` and `""` are falsy. -/
def optTruthy (s : Option String) : Option String :=
  match s with
  | none => none
  | some v => if v = "" then none else some v

/-- The state of the underlying paramiko `SSHClient` object: whether its
`connect` call has succeeded. -/
structure SSHClient where
  connected : Bool
deriving DecidableEq, Repr

/-- The external transport (paramiko + remote side), supplied as an
environment: for given inputs, whether each operation succeeds and with what
data. Exec/transfer failures cover session drops and decode errors. -/
structure TransportEnv where
  connectOutcome : ConnectKwargs → Except String Unit
  execOutcome : String → Except String RawResult
  uploadOutcome : String → String → Option Nat → Except String Unit
  downloadOutcome : String → String → Except String Unit

/-- The `Executor` state (class `Executor` of executor.py). -/
structure Executor where
  hostname : String
  username : String
  password : Option String
  key_filename : Option String
  port : Nat
  timeout : Nat
  client : Option SSHClient
deriving Repr

/-- `Executor.__init__`: client starts as `None` (disconnected). -/
def Executor.init (hostname username : String) (password key_filename :
    Option String) (port timeout : Nat) : Executor :=
  { hostname := hostname, username := username, password := password
    key_filename := key_filename, port := port, timeout := timeout
    client := none }

/-- The `connect_kwargs` dict built in `Executor.connect`: password and
key_filename included only when truthy. -/
def Executor.connectKwargs (e : Executor) : ConnectKwargs :=
  { hostname := e.hostname, username := e.username, port := e.port
    timeout := e.timeout, password := optTruthy e.password
    key_filename := optTruthy e.key_filename }

/-- Outcome of `Executor.connect`: new state, log lines, raised error if
any. -/
structure ConnOutcome where
  exec : Executor
  logs : List LogEvent
  result : Except String Unit
deriving Repr

/-- `Executor.connect`: assigns a fresh `SSHClient` to `self.client` BEFORE
attempting the transport connect, so on failure the handle stays set (to a
client that never connected) while `ExecutionError` is raised. -/
def Executor.connect (tr : TransportEnv) (e : Executor) : ConnOutcome :=
  let e1 : Executor := { e with client := some { connected := false } }
  let logs0 : List LogEvent :=
    [⟨.info, "Connecting to " ++ e.hostname ++ " as " ++ e.username⟩]
  match tr.connectOutcome e.connectKwargs with
  | .ok _ =>
      { exec := { e1 with client := some { connected := true } }
        logs := logs0 ++ [⟨.info, "Successfully connected to " ++ e.hostname⟩]
        result := .ok () }
  | .error m =>
      { exec := e1
        logs := logs0 ++
          [⟨.error, "Failed to connect to " ++ e.hostname ++ ": " ++ m⟩]
        result := .error ("Connection failed: " ++ m) }

/-- Python `" ".join(...)`. -/
def joinSpace : List String → String
  | [] => ""
  | [s] => s
  | s :: rest => s ++ " " ++ joinSpace rest

/-- `env_str`: the space-joined `KEY=VALUE` assignments, in the mapping's
insertion order. -/
def envString (env : List (String × String)) : String :=
  joinSpace (env.map (fun p => p.1 ++ "=" ++ p.2))

/-- The command string `Executor.execute` finally passes to
`exec_command`: `sudo ` prefixed first when requested, then the non-empty
`env_str` prefixed in front. -/
def Executor.buildCommand (command : String) (sudoFlag : Bool)
    (env : List (String × String)) : String :=
  let cmd1 := if sudoFlag then "sudo " ++ command else command
  let env_str := envString env
  if env_str = "" then cmd1 else env_str ++ " " ++ cmd1

/-- The execution result dict: stdout and stderr after `.strip()`, and the
exit status. -/
structure ExecResult where
  stdout : String
  stderr : String
  status : Int
deriving DecidableEq, Repr

/-- Outcome of `Executor.execute`: new state, how many times `connect()` was
invoked during the call, log lines, and the returned dict or raised
error. -/
structure ExecOutcome where
  exec : Executor
  connects : Nat
  logs : List LogEvent
  result : Except String ExecResult
deriving Repr

/-- The body of `Executor.execute` after the implicit-connect check: build
the command, run it, trim the outputs, warn on non-zero status. -/
def executeBody (tr : TransportEnv) (e : Executor) (nconn : Nat)
    (logs0 : List LogEvent) (command : String) (sudoFlag : Bool)
    (env : List (String × String)) : ExecOutcome :=
  let cmd1 := if sudoFlag then "sudo " ++ command else command
  let logs1 := logs0 ++ [⟨.debug, "Executing command: " ++ cmd1⟩]
  let cmd2 := Executor.buildCommand command sudoFlag env
  match tr.execOutcome cmd2 with
  | .error m =>
      { exec := e, connects := nconn
        logs := logs1 ++ [⟨.error, "Command execution failed: " ++ m⟩]
        result := .error ("Execution failed: " ++ m) }
  | .ok raw =>
      let logs2 :=
        if raw.status ≠ 0 then
          logs1 ++ [⟨.warning, "Command exited with status " ++
            toString raw.status ++ ": " ++ raw.stderr.trim⟩]
        else logs1 ++ [⟨.debug, "Command executed successfully"⟩]
      { exec := e, connects := nconn, logs := logs2
        result := .ok ⟨raw.stdout.trim, raw.stderr.trim, raw.status⟩ }

/-- `Executor.execute`: `if not self.client: self.connect()` (whose failure
propagates), then the body. -/
def Executor.execute (tr : TransportEnv) (e : Executor) (command : String)
    (sudoFlag : Bool) (env : List (String × String)) : ExecOutcome :=
  match e.client with
  | none =>
      let c := e.connect tr
      match c.result with
      | .error m =>
          { exec := c.exec, connects := 1, logs := c.logs, result := .error m }
      | .ok _ => executeBody tr c.exec 1 c.logs command sudoFlag env
  | some _ => executeBody tr e 0 [] command sudoFlag env

/-- Outcome of a file transfer call. -/
structure TransferOutcome where
  exec : Executor
  connects : Nat
  logs : List LogEvent
  result : Except String Unit
deriving Repr

/-- Body of `upload_file` after the implicit-connect check (the sftp
open/put/chmod/close sequence collapsed into one transport outcome). -/
def uploadBody (tr : TransportEnv) (e : Executor) (nconn : Nat)
    (logs0 : List LogEvent) (local_path remote_path : String)
    (mode : Option Nat) : TransferOutcome :=
  let logs1 := logs0 ++
    [⟨.info, "Uploading " ++ local_path ++ " to " ++ remote_path⟩]
  match tr.uploadOutcome local_path remote_path mode with
  | .error m =>
      { exec := e, connects := nconn
        logs := logs1 ++ [⟨.error, "File upload failed: " ++ m⟩]
        result := .error ("Upload failed: " ++ m) }
  | .ok _ =>
      { exec := e, connects := nconn
        logs := logs1 ++ [⟨.info, "File uploaded successfully"⟩]
        result := .ok () }

/-- `Executor.upload_file`: lazy connect, then the transfer body. -/
def Executor.upload_file (tr : TransportEnv) (e : Executor)
    (local_path remote_path : String) (mode : Option Nat) : TransferOutcome :=
  match e.client with
  | none =>
      let c := e.connect tr
      match c.result with
      | .error m =>
          { exec := c.exec, connects := 1, logs := c.logs, result := .error m }
      | .ok _ => uploadBody tr c.exec 1 c.logs local_path remote_path mode
  | some _ => uploadBody tr e 0 [] local_path remote_path mode

/-- Body of `download_file` after the implicit-connect check. -/
def downloadBody (tr : TransportEnv) (e : Executor) (nconn : Nat)
    (logs0 : List LogEvent) (remote_path local_path : String) :
    TransferOutcome :=
  let logs1 := logs0 ++
    [⟨.info, "Downloading " ++ remote_path ++ " to " ++ local_path⟩]
  match tr.downloadOutcome remote_path local_path with
  | .error m =>
      { exec := e, connects := nconn
        logs := logs1 ++ [⟨.error, "File download failed: " ++ m⟩]
        result := .error ("Download failed: " ++ m) }
  | .ok _ =>
      { exec := e, connects := nconn
        logs := logs1 ++ [⟨.info, "File downloaded successfully"⟩]
        result := .ok () }

/-- `Executor.download_file`: lazy connect, then the transfer body. -/
def Executor.download_file (tr : TransportEnv) (e : Executor)
    (remote_path local_path : String) : TransferOutcome :=
  match e.client with
  | none =>
      let c := e.connect tr
      match c.result with
      | .error m =>
          { exec := c.exec, connects := 1, logs := c.logs, result := .error m }
      | .ok _ => downloadBody tr c.exec 1 c.logs remote_path local_path
  | some _ => downloadBody tr e 0 [] remote_path local_path

/-- `Executor.close`: if a client handle is set, close it and clear the
handle; otherwise do nothing. Never raises. -/
def Executor.close (e : Executor) : Executor × List LogEvent :=
  match e.client with
  | some _ =>
      ({ e with client := none },
       [⟨.info, "Closed connection to " ++ e.hostname⟩])
  | none => (e, [])

/-- Stated from the specification's words, for comparison with the code's
`Executor.buildCommand`: prefix `sudo ` when requested, and prefix the
space-joined `KEY=VALUE` assignments of a NON-EMPTY env mapping, in
insertion order, before the (possibly sudo-prefixed) command. -/
def specFinalCommand (command : String) (sudoFlag : Bool)
    (env : List (String × String)) : String :=
  let c1 := if sudoFlag then "sudo " ++ command else command
  match env with
  | [] => c1
  | _ :: _ => envString env ++ " " ++ c1

/-! ## Concrete instances (used by witnesses) -/

/-- A valid host entry carrying one group of its own. -/
def hdWit : HostData :=
  { hostname := some "web1.example.com", username := some "admin"
    password := none, key_file := none, port := none
    groups := some ["webservers"], vars := none }

/-- A document whose groups section adds the same host to a second group. -/
def docWit : Document :=
  { hosts := some [("web1", hdWit)]
    groups := some [("production", { hosts := some ["web1"] })] }

/-- The host record `Host.from_dict hdWit` produces, before group
resolution. -/
def hostWit0 : Host :=
  { hostname := "web1.example.com", username := "admin", password := none
    key_file := none, port := 22, groups := ["webservers"], vars := [] }

/-- The host record `docWit` loads to. -/
def hostWit : Host :=
  { hostname := "web1.example.com", username := "admin", password := none
    key_file := none, port := 22, groups := ["webservers", "production"]
    vars := [] }

/-- The inventory `docWit` loads to. -/
def invWit : Inventory :=
  { hosts := [("web1", hostWit)]
    groups := [("webservers", ["web1"]), ("production", ["web1"])] }

/-- A host entry missing the required `username` field. -/
def hdBadWit : HostData :=
  { hostname := some "web1.example.com", username := none, password := none
    key_file := none, port := none, groups := none, vars := none }

/-- A document containing the invalid host entry. -/
def docBadWit : Document :=
  { hosts := some [("web1", hdBadWit)], groups := none }

/-- A document whose groups section references an unknown host name. -/
def docSkipWit : Document :=
  { hosts := some [("web1", hdWit)]
    groups := some [("production", { hosts := some ["ghost"] })] }

/-- A transport on which every operation succeeds and commands exit with
status 1. -/
def trOkWit : TransportEnv :=
  { connectOutcome := fun _ => .ok ()
    execOutcome := fun _ => .ok { stdout := " ok ", stderr := "", status := 1 }
    uploadOutcome := fun _ _ _ => .ok ()
    downloadOutcome := fun _ _ => .ok () }

/-- A transport whose connect always fails. -/
def trFailWit : TransportEnv :=
  { connectOutcome := fun _ => .error "boom"
    execOutcome := fun _ => .ok { stdout := "", stderr := "", status := 0 }
    uploadOutcome := fun _ _ _ => .ok ()
    downloadOutcome := fun _ _ => .ok () }

/-- An executor in the connected state. -/
def exConnWit : Executor :=
  { hostname := "h", username := "u", password := none, key_filename := none
    port := 22, timeout := 30, client := some { connected := true } }

/-- A freshly constructed (disconnected) executor. -/
def exFreshWit : Executor := Executor.init "h" "u" none none 22 30

/-! ## Dictionary lemmas -/

theorem dictLookup_insert {α : Type} (l : List (String × α)) (k n : String)
    (v : α) :
    dictLookup (dictInsert l k v) n =
      if k = n then some v else dictLookup l n := by
  induction l with
  | nil => simp [dictInsert, dictLookup]
  | cons p rest ih =>
      obtain ⟨k', v'⟩ := p
      by_cases h : k' = k
      · subst h
        by_cases h1 : k' = n
        · subst h1; simp [dictInsert, dictLookup]
        · simp [dictInsert, dictLookup, h1]
      · by_cases h1 : k' = n
        · subst h1
          have h2 : ¬ k = k' := fun hh => h hh.symm
          simp [dictInsert, dictLookup, h, h2]
        · simp [dictInsert, dictLookup, h, h1, ih]

theorem dictLookup_insert_self {α : Type} (l : List (String × α))
    (k : String) (v : α) : dictLookup (dictInsert l k v) k = some v := by
  simp [dictLookup_insert]

theorem dictLookup_insert_of_ne {α : Type} (l : List (String × α))
    (k n : String) (v : α) (h : k ≠ n) :
    dictLookup (dictInsert l k v) n = dictLookup l n := by
  simp [dictLookup_insert, h]

theorem dictLookup_insert_isSome {α : Type} (l : List (String × α))
    (k n : String) (v w : α) (h : dictLookup l n = some w) :
    ∃ u, dictLookup (dictInsert l k v) n = some u := by
  by_cases hk : k = n
  · exact ⟨v, by simp [dictLookup_insert, hk]⟩
  · exact ⟨w, by simp [dictLookup_insert, hk, h]⟩

/-! ## registerGroup and the add_host group loop -/

theorem registerGroup_lookup_self (name : String)
    (gs : List (String × List String)) (group : String) :
    dictLookup (registerGroup name gs group) group =
      some (let cur := (dictLookup gs group).getD []
            if name ∈ cur then cur else cur ++ [name]) := by
  unfold registerGroup dictContains
  cases hc : dictLookup gs group with
  | none =>
      simp [hc, dictLookup_insert_self]
  | some c =>
      by_cases hm : name ∈ c
      · simp [hc, hm]
      · simp [hc, hm, dictLookup_insert_self]

theorem registerGroup_lookup_of_ne (name : String)
    (gs : List (String × List String)) (group g : String) (h : g ≠ group) :
    dictLookup (registerGroup name gs group) g = dictLookup gs g := by
  unfold registerGroup dictContains
  have h' : group ≠ g := fun hh => h hh.symm
  cases hc : dictLookup gs group with
  | none =>
      simp [hc, dictLookup_insert_of_ne _ _ _ _ h',
        dictLookup_insert_self]
  | some c =>
      by_cases hm : name ∈ c
      · simp [hc, hm]
      · simp [hc, hm, dictLookup_insert_of_ne _ _ _ _ h']

theorem registerGroup_mono (name : String)
    (gs : List (String × List String)) (group g : String) (ns : List String)
    (h : dictLookup gs g = some ns) :
    ∃ ns', dictLookup (registerGroup name gs group) g = some ns' ∧
      ns ⊆ ns' := by
  by_cases hg : g = group
  · subst hg
    rw [registerGroup_lookup_self, h]
    by_cases hm : name ∈ ns
    · exact ⟨ns, by simp [hm], List.Subset.refl ns⟩
    · exact ⟨ns ++ [name], by simp [hm], List.subset_append_left ns [name]⟩
  · exact ⟨ns, by rw [registerGroup_lookup_of_ne _ _ _ _ hg, h], .refl ns⟩

theorem registerGroup_self_mem (name : String)
    (gs : List (String × List String)) (group : String) :
    ∃ ns, dictLookup (registerGroup name gs group) group = some ns ∧
      name ∈ ns := by
  rw [registerGroup_lookup_self]
  by_cases hm : name ∈ (dictLookup gs group).getD []
  · exact ⟨(dictLookup gs group).getD [], by simp [hm], hm⟩
  · exact ⟨(dictLookup gs group).getD [] ++ [name], by simp [hm],
      List.mem_append_right _ (List.mem_singleton.mpr rfl)⟩

theorem registerGroup_members (name : String)
    (gs : List (String × List String)) (group g : String) (ns : List String)
    (h : dictLookup (registerGroup name gs group) g = some ns)
    (x : String) (hx : x ∈ ns) :
    x = name ∨ ∃ ns0, dictLookup gs g = some ns0 ∧ x ∈ ns0 := by
  by_cases hg : g = group
  · subst hg
    rw [registerGroup_lookup_self] at h
    cases hc : dictLookup gs g with
    | none =>
        rw [hc] at h
        simp at h
        subst h
        simp at hx
        exact .inl hx
    | some c =>
        rw [hc] at h
        simp at h
        by_cases hm : name ∈ c
        · rw [if_pos hm] at h
          exact .inr ⟨c, rfl, h ▸ hx⟩
        · rw [if_neg hm] at h
          rcases List.mem_append.mp (h ▸ hx) with h1 | h1
          · exact .inr ⟨c, rfl, h1⟩
          · exact .inl (List.mem_singleton.mp h1)
  · rw [registerGroup_lookup_of_ne _ _ _ _ hg] at h
    exact .inr ⟨ns, h, hx⟩

theorem groupFold_mono (name : String) (l : List String) :
    ∀ (gs : List (String × List String)) (g : String) (ns : List String),
    dictLookup gs g = some ns →
    ∃ ns', dictLookup (l.foldl (registerGroup name) gs) g = some ns' ∧
      ns ⊆ ns' := by
  induction l with
  | nil => exact fun gs g ns h => ⟨ns, h, .refl ns⟩
  | cons a rest ih =>
      intro gs g ns h
      obtain ⟨ns1, h1, hsub1⟩ := registerGroup_mono name gs a g ns h
      obtain ⟨ns2, h2, hsub2⟩ := ih (registerGroup name gs a) g ns1 h1
      exact ⟨ns2, h2, hsub1.trans hsub2⟩

theorem groupFold_establish (name : String) (l : List String) :
    ∀ (gs : List (String × List String)) (g : String), g ∈ l →
    ∃ ns, dictLookup (l.foldl (registerGroup name) gs) g = some ns ∧
      name ∈ ns := by
  induction l with
  | nil => intro gs g h; exact absurd h (List.not_mem_nil g)
  | cons a rest ih =>
      intro gs g h
      rcases List.mem_cons.mp h with h1 | h1
      · subst h1
        obtain ⟨ns, hns, hmem⟩ := registerGroup_self_mem name gs g
        obtain ⟨ns', hns', hsub⟩ :=
          groupFold_mono name rest (registerGroup name gs g) g ns hns
        exact ⟨ns', hns', hsub hmem⟩
      · exact ih (registerGroup name gs a) g h1

theorem groupFold_members (name : String) (l : List String) :
    ∀ (gs : List (String × List String)) (g : String) (ns : List String),
    dictLookup (l.foldl (registerGroup name) gs) g = some ns →
    ∀ x, x ∈ ns →
    x = name ∨ ∃ ns0, dictLookup gs g = some ns0 ∧ x ∈ ns0 := by
  induction l with
  | nil => exact fun gs g ns h x hx => .inr ⟨ns, h, hx⟩
  | cons a rest ih =>
      intro gs g ns h x hx
      rcases ih (registerGroup name gs a) g ns h x hx with h1 | ⟨ns0, h0, hx0⟩
      · exact .inl h1
      · exact registerGroup_members name gs a g ns0 h0 x hx0

/-! ## Bidirectional-membership invariants -/

/-- Host `H` carries group `G` in its own group list. -/
def hostHasGroup (inv : Inventory) (H G : String) : Prop :=
  ∃ h, dictLookup inv.hosts H = some h ∧ G ∈ h.groups

/-- The group index lists `H` as a member of `G`. -/
def groupHasHost (inv : Inventory) (H G : String) : Prop :=
  ∃ ns, dictLookup inv.groups G = some ns ∧ H ∈ ns

/-- Every group in a host's own list is registered with that host in the
group index. -/
def HostsHaveGroups (inv : Inventory) : Prop :=
  ∀ n h, dictLookup inv.hosts n = some h → ∀ g, g ∈ h.groups →
    groupHasHost inv n g

/-- Every member name in the group index resolves in the host map. -/
def GroupMembersExist (inv : Inventory) : Prop :=
  ∀ g ns, dictLookup inv.groups g = some ns → ∀ n, n ∈ ns →
    ∃ h, dictLookup inv.hosts n = some h

theorem empty_HostsHaveGroups : HostsHaveGroups Inventory.empty := by
  intro n h hl
  simp [Inventory.empty, dictLookup] at hl

theorem empty_GroupMembersExist : GroupMembersExist Inventory.empty := by
  intro g ns hl
  simp [Inventory.empty, dictLookup] at hl

/-! ## add_host lemmas -/

theorem add_host_hosts (inv : Inventory) (name : String) (host : Host) :
    (inv.add_host name host).hosts = dictInsert inv.hosts name host := rfl

theorem add_host_groupHasHost (inv : Inventory) (name H G : String)
    (host : Host) (h : groupHasHost inv H G) :
    groupHasHost (inv.add_host name host) H G := by
  obtain ⟨ns, hns, hmem⟩ := h
  obtain ⟨ns', hns', hsub⟩ := groupFold_mono name host.groups inv.groups G ns hns
  exact ⟨ns', hns', hsub hmem⟩

theorem add_host_establish (inv : Inventory) (name : String) (host : Host) :
    dictLookup (inv.add_host name host).hosts name = some host ∧
    ∀ g, g ∈ host.groups → groupHasHost (inv.add_host name host) name g := by
  constructor
  · rw [add_host_hosts, dictLookup_insert_self]
  · intro g hg
    exact groupFold_establish name host.groups inv.groups g hg

theorem add_host_HostsHaveGroups (inv : Inventory) (name : String)
    (host : Host) (h : HostsHaveGroups inv) :
    HostsHaveGroups (inv.add_host name host) := by
  intro n hh hl g hg
  rw [add_host_hosts, dictLookup_insert] at hl
  by_cases hn : name = n
  · rw [if_pos hn] at hl
    cases hl
    exact hn ▸ (add_host_establish inv name host).2 g hg
  · rw [if_neg hn] at hl
    exact add_host_groupHasHost inv name n g host (h n hh hl g hg)

theorem add_host_GroupMembersExist (inv : Inventory) (name : String)
    (host : Host) (h : GroupMembersExist inv) :
    GroupMembersExist (inv.add_host name host) := by
  intro g ns hns n hn
  rcases groupFold_members name host.groups inv.groups g ns hns n hn with
    h1 | ⟨ns0, h0, hn0⟩
  · rw [h1]
    exact ⟨host, (add_host_establish inv name host).1⟩
  · obtain ⟨hh, hhl⟩ := h g ns0 h0 n hn0
    obtain ⟨u, hu⟩ := dictLookup_insert_isSome inv.hosts name n host hh hhl
    exact ⟨u, by rw [add_host_hosts]; exact hu⟩

theorem add_host_lookup_of_ne (inv : Inventory) (name n : String)
    (host : Host) (h : name ≠ n) :
    dictLookup (inv.add_host name host).hosts n = dictLookup inv.hosts n := by
  rw [add_host_hosts, dictLookup_insert_of_ne _ _ _ _ h]

/-! ## loadHosts lemmas -/

theorem loadHosts_invariants (entries : List (String × HostData)) :
    ∀ (inv inv' : Inventory), loadHosts entries inv = .ok inv' →
    HostsHaveGroups inv → GroupMembersExist inv →
    HostsHaveGroups inv' ∧ GroupMembersExist inv' := by
  induction entries with
  | nil =>
      intro inv inv' h h1 h2
      simp [loadHosts] at h
      exact h ▸ ⟨h1, h2⟩
  | cons p rest ih =>
      intro inv inv' h h1 h2
      obtain ⟨name, hd⟩ := p
      unfold loadHosts at h
      cases hfd : Host.from_dict hd with
      | error e => rw [hfd] at h; exact absurd h (by simp)
      | ok host =>
          rw [hfd] at h
          exact ih (inv.add_host name host) inv' h
            (add_host_HostsHaveGroups inv name host h1)
            (add_host_GroupMembersExist inv name host h2)

theorem loadHosts_preserve_lookup (entries : List (String × HostData))
    (X : String) :
    ∀ (inv inv' : Inventory), X ∉ entries.map Prod.fst →
    loadHosts entries inv = .ok inv' →
    dictLookup inv'.hosts X = dictLookup inv.hosts X := by
  induction entries with
  | nil =>
      intro inv inv' _ h
      simp [loadHosts] at h
      rw [h]
  | cons p rest ih =>
      intro inv inv' hX h
      obtain ⟨name, hd⟩ := p
      unfold loadHosts at h
      cases hfd : Host.from_dict hd with
      | error e => rw [hfd] at h; exact absurd h (by simp)
      | ok host =>
          rw [hfd] at h
          have hne : name ≠ X := by
            intro hh
            exact hX (by simp [hh])
          have hrest : X ∉ rest.map Prod.fst := by
            intro hh
            exact hX (by simp [hh])
          rw [ih (inv.add_host name host) inv' hrest h,
            add_host_lookup_of_ne inv name X host hne]

theorem loadHosts_mem (entries : List (String × HostData)) (H : String)
    (hd : HostData) :
    ∀ (inv inv' : Inventory), (entries.map Prod.fst).Nodup →
    (H, hd) ∈ entries → loadHosts entries inv = .ok inv' →
    ∃ host, Host.from_dict hd = .ok host ∧
      dictLookup inv'.hosts H = some host := by
  induction entries with
  | nil =>
      intro inv inv' _ hmem _
      exact absurd hmem (List.not_mem_nil (H, hd))
  | cons p rest ih =>
      intro inv inv' hnd hmem h
      obtain ⟨name, d⟩ := p
      unfold loadHosts at h
      cases hfd : Host.from_dict d with
      | error e => rw [hfd] at h; exact absurd h (by simp)
      | ok host =>
          rw [hfd] at h
          rw [List.map_cons] at hnd
          rcases List.mem_cons.mp hmem with h1 | h1
          · have hH : H = name := congrArg Prod.fst h1
            have hhd : hd = d := congrArg Prod.snd h1
            refine ⟨host, by rw [hhd]; exact hfd, ?_⟩
            have hX : H ∉ rest.map Prod.fst := by
              rw [hH]
              exact (List.nodup_cons.mp hnd).1
            rw [loadHosts_preserve_lookup rest H (inv.add_host name host) inv'
              hX h, hH, add_host_hosts, dictLookup_insert_self]
          · exact ih (inv.add_host name host) inv'
              (List.nodup_cons.mp hnd).2 h1 h

theorem loadHosts_ok_of_valid (entries : List (String × HostData)) :
    ∀ inv : Inventory, (∀ p ∈ entries, ∃ h, Host.from_dict p.2 = .ok h) →
    ∃ inv', loadHosts entries inv = .ok inv' := by
  induction entries with
  | nil => exact fun inv _ => ⟨inv, rfl⟩
  | cons p rest ih =>
      intro inv hvalid
      obtain ⟨name, hd⟩ := p
      obtain ⟨host, hfd⟩ := hvalid (name, hd) (List.mem_cons_self _ _)
      obtain ⟨inv', h⟩ := ih (inv.add_host name host)
        (fun q hq => hvalid q (List.mem_cons_of_mem _ hq))
      exact ⟨inv', by unfold loadHosts; rw [hfd]; exact h⟩

theorem loadHosts_error (entries : List (String × HostData)) (H : String)
    (hd : HostData) :
    ∀ inv : Inventory, (H, hd) ∈ entries →
    (∀ h, Host.from_dict hd ≠ .ok h) →
    ∃ e, loadHosts entries inv = .error e := by
  induction entries with
  | nil =>
      intro inv hmem _
      exact absurd hmem (List.not_mem_nil (H, hd))
  | cons p rest ih =>
      intro inv hmem hbad
      obtain ⟨name, d⟩ := p
      cases hfd : Host.from_dict d with
      | error e => exact ⟨e, by unfold loadHosts; rw [hfd]⟩
      | ok host =>
          rcases List.mem_cons.mp hmem with h1 | h1
          · have hhd : hd = d := congrArg Prod.snd h1
            exact absurd (show Host.from_dict hd = .ok host by
              rw [hhd]; exact hfd) (hbad host)
          · obtain ⟨e, he⟩ := ih (inv.add_host name host) h1 hbad
            exact ⟨e, by unfold loadHosts; rw [hfd]; exact he⟩

/-! ## processGroupHost lemmas -/

theorem processGroupHost_eq_none (inv : Inventory) (gn hn : String)
    (hl : dictLookup inv.hosts hn = none) :
    processGroupHost inv gn hn = inv := by
  unfold processGroupHost
  rw [hl]

theorem processGroupHost_eq_already (inv : Inventory) (gn hn : String)
    (host : Host) (hl : dictLookup inv.hosts hn = some host)
    (hg : gn ∈ host.groups) :
    processGroupHost inv gn hn = inv := by
  unfold processGroupHost
  rw [hl]
  simp [hg]

theorem processGroupHost_eq_new (inv : Inventory) (gn hn : String)
    (host : Host) (hl : dictLookup inv.hosts hn = some host)
    (hg : gn ∉ host.groups) :
    processGroupHost inv gn hn =
      { hosts := dictInsert inv.hosts hn
          { host with groups := host.groups ++ [gn] }
        groups :=
          dictInsert
            (if dictContains inv.groups gn then inv.groups
             else dictInsert inv.groups gn [])
            gn
            (((dictLookup
                (if dictContains inv.groups gn then inv.groups
                 else dictInsert inv.groups gn []) gn).getD []) ++ [hn]) } := by
  unfold processGroupHost
  rw [hl]
  simp [hg]

theorem newGroups_lookup_self (gs : List (String × List String))
    (gn hn : String) :
    dictLookup
      (dictInsert
        (if dictContains gs gn then gs else dictInsert gs gn []) gn
        (((dictLookup
            (if dictContains gs gn then gs
             else dictInsert gs gn []) gn).getD []) ++ [hn])) gn =
      some ((dictLookup gs gn).getD [] ++ [hn]) := by
  cases hgl : dictLookup gs gn with
  | none => simp [dictContains, hgl, dictLookup_insert_self]
  | some c => simp [dictContains, hgl, dictLookup_insert_self]

theorem newGroups_lookup_ne (gs : List (String × List String))
    (gn hn g : String) (hne : g ≠ gn) :
    dictLookup
      (dictInsert
        (if dictContains gs gn then gs else dictInsert gs gn []) gn
        (((dictLookup
            (if dictContains gs gn then gs
             else dictInsert gs gn []) gn).getD []) ++ [hn])) g =
      dictLookup gs g := by
  have h1 : gn ≠ g := fun hh => hne hh.symm
  cases hgl : dictLookup gs gn with
  | none =>
      simp [dictContains, hgl, dictLookup_insert_of_ne _ _ _ _ h1]
  | some c =>
      simp [dictContains, hgl, dictLookup_insert_of_ne _ _ _ _ h1]

theorem processGroupHost_groups_mono (inv : Inventory) (gn hn g : String)
    (ns : List String) (h : dictLookup inv.groups g = some ns) :
    ∃ ns', dictLookup (processGroupHost inv gn hn).groups g = some ns' ∧
      ns ⊆ ns' := by
  cases hl : dictLookup inv.hosts hn with
  | none => exact ⟨ns, by rw [processGroupHost_eq_none inv gn hn hl]; exact h,
      .refl ns⟩
  | some host =>
      by_cases hg : gn ∈ host.groups
      · exact ⟨ns,
          by rw [processGroupHost_eq_already inv gn hn host hl hg]; exact h,
          .refl ns⟩
      · rw [processGroupHost_eq_new inv gn hn host hl hg]
        by_cases hgn : g = gn
        · subst hgn
          refine ⟨ns ++ [hn], ?_, List.subset_append_left ns [hn]⟩
          rw [newGroups_lookup_self, h]
          rfl
        · exact ⟨ns, by rw [newGroups_lookup_ne _ _ _ _ hgn]; exact h, .refl ns⟩

theorem processGroupHost_hosts_mono (inv : Inventory) (gn hn n : String)
    (h : Host) (hl : dictLookup inv.hosts n = some h) :
    ∃ h', dictLookup (processGroupHost inv gn hn).hosts n = some h' ∧
      h.groups ⊆ h'.groups := by
  cases hhl : dictLookup inv.hosts hn with
  | none => exact ⟨h, by rw [processGroupHost_eq_none inv gn hn hhl]; exact hl,
      .refl _⟩
  | some host =>
      by_cases hg : gn ∈ host.groups
      · exact ⟨h,
          by rw [processGroupHost_eq_already inv gn hn host hhl hg]; exact hl,
          .refl _⟩
      · rw [processGroupHost_eq_new inv gn hn host hhl hg]
        by_cases hν : hn = n
        · subst hν
          rw [hl] at hhl
          have heq : h = host := Option.some.injEq .. ▸ hhl
          refine ⟨{ host with groups := host.groups ++ [gn] },
            by simp [dictLookup_insert_self], ?_⟩
          rw [heq]
          exact List.subset_append_left _ _
        · exact ⟨h, by simp [dictLookup_insert_of_ne _ _ _ _ hν]; exact hl,
            .refl _⟩

theorem processGroupHost_hosts_none (inv : Inventory) (gn hn X : String)
    (h : dictLookup inv.hosts X = none) :
    dictLookup (processGroupHost inv gn hn).hosts X = none := by
  cases hhl : dictLookup inv.hosts hn with
  | none => rw [processGroupHost_eq_none inv gn hn hhl]; exact h
  | some host =>
      by_cases hg : gn ∈ host.groups
      · rw [processGroupHost_eq_already inv gn hn host hhl hg]; exact h
      · rw [processGroupHost_eq_new inv gn hn host hhl hg]
        have hν : hn ≠ X := by
          intro hh
          rw [hh, h] at hhl
          exact absurd hhl (by simp)
        simp [dictLookup_insert_of_ne _ _ _ _ hν]
        exact h

theorem processGroupHost_hostHasGroup (inv : Inventory) (gn hn H G : String)
    (h : hostHasGroup inv H G) :
    hostHasGroup (processGroupHost inv gn hn) H G := by
  obtain ⟨hh, hl, hg⟩ := h
  obtain ⟨h', hl', hsub⟩ := processGroupHost_hosts_mono inv gn hn H hh hl
  exact ⟨h', hl', hsub hg⟩

theorem processGroupHost_groupHasHost (inv : Inventory) (gn hn H G : String)
    (h : groupHasHost inv H G) :
    groupHasHost (processGroupHost inv gn hn) H G := by
  obtain ⟨ns, hns, hmem⟩ := h
  obtain ⟨ns', hns', hsub⟩ := processGroupHost_groups_mono inv gn hn G ns hns
  exact ⟨ns', hns', hsub hmem⟩

theorem processGroupHost_HostsHaveGroups (inv : Inventory) (gn hn : String)
    (h : HostsHaveGroups inv) :
    HostsHaveGroups (processGroupHost inv gn hn) := by
  cases hhl : dictLookup inv.hosts hn with
  | none => rw [processGroupHost_eq_none inv gn hn hhl]; exact h
  | some host =>
      by_cases hg : gn ∈ host.groups
      · rw [processGroupHost_eq_already inv gn hn host hhl hg]; exact h
      · intro n hx hl g hgx
        have hback :
            (n = hn ∧ hx = { host with groups := host.groups ++ [gn] }) ∨
            (n ≠ hn ∧ dictLookup inv.hosts n = some hx) := by
          rw [processGroupHost_eq_new inv gn hn host hhl hg] at hl
          by_cases hν : hn = n
          · subst hν
            rw [dictLookup_insert_self] at hl
            exact .inl ⟨rfl, (Option.some.injEq .. ▸ hl).symm⟩
          · rw [dictLookup_insert_of_ne _ _ _ _ hν] at hl
            exact .inr ⟨fun hh => hν hh.symm, hl⟩
        rcases hback with ⟨hn1, hx1⟩ | ⟨hn1, hl1⟩
        · subst hn1
          subst hx1
          simp at hgx
          rcases hgx with hgx | hgx
          · -- g was already a group of the host: registered before the step
            obtain ⟨ns, hns, hmem⟩ := h n host hhl g hgx
            exact processGroupHost_groupHasHost inv gn n n g ⟨ns, hns, hmem⟩
          · -- g is the newly appended group name
            subst hgx
            refine ⟨(dictLookup inv.groups g).getD [] ++ [n], ?_, by simp⟩
            rw [processGroupHost_eq_new inv g n host hhl hg]
            exact newGroups_lookup_self inv.groups g n
        · exact processGroupHost_groupHasHost inv gn hn n g (h n hx hl1 g hgx)

theorem processGroupHost_GroupMembersExist (inv : Inventory) (gn hn : String)
    (h : GroupMembersExist inv) :
    GroupMembersExist (processGroupHost inv gn hn) := by
  cases hhl : dictLookup inv.hosts hn with
  | none => rw [processGroupHost_eq_none inv gn hn hhl]; exact h
  | some host =>
      by_cases hg : gn ∈ host.groups
      · rw [processGroupHost_eq_already inv gn hn host hhl hg]; exact h
      · intro g ns hns n hn1
        have hmem :
            n = hn ∨ ∃ ns0, dictLookup inv.groups g = some ns0 ∧ n ∈ ns0 := by
          rw [processGroupHost_eq_new inv gn hn host hhl hg] at hns
          by_cases hgn : g = gn
          · subst hgn
            rw [newGroups_lookup_self] at hns
            have := (Option.some.injEq .. ▸ hns).symm
            subst this
            rcases List.mem_append.mp hn1 with h1 | h1
            · cases hc : dictLookup inv.groups g with
              | none => rw [hc] at h1; exact absurd h1 (by simp)
              | some c => exact .inr ⟨c, rfl, by rw [hc] at h1; exact h1⟩
            · exact .inl (List.mem_singleton.mp h1)
          · rw [newGroups_lookup_ne _ _ _ _ hgn] at hns
            exact .inr ⟨ns, hns, hn1⟩
        rcases hmem with h1 | ⟨ns0, h0, hmem0⟩
        · subst h1
          obtain ⟨h', hl', _⟩ := processGroupHost_hosts_mono inv gn n n host hhl
          exact ⟨h', hl'⟩
        · obtain ⟨hh, hhl2⟩ := h g ns0 h0 n hmem0
          obtain ⟨h', hl', _⟩ := processGroupHost_hosts_mono inv gn hn n hh hhl2
          exact ⟨h', hl'⟩

theorem processGroupHost_establish (inv : Inventory) (gn hn : String)
    (host : Host) (hl : dictLookup inv.hosts hn = some host)
    (hinv : HostsHaveGroups inv) :
    hostHasGroup (processGroupHost inv gn hn) hn gn ∧
    groupHasHost (processGroupHost inv gn hn) hn gn := by
  by_cases hg : gn ∈ host.groups
  · rw [processGroupHost_eq_already inv gn hn host hl hg]
    exact ⟨⟨host, hl, hg⟩, hinv hn host hl gn hg⟩
  · constructor
    · rw [processGroupHost_eq_new inv gn hn host hl hg]
      exact ⟨{ host with groups := host.groups ++ [gn] },
        by simp [dictLookup_insert_self], by simp⟩
    · refine ⟨(dictLookup inv.groups gn).getD [] ++ [hn], ?_, by simp⟩
      rw [processGroupHost_eq_new inv gn hn host hl hg]
      exact newGroups_lookup_self inv.groups gn hn

/-! ## Fold and processGroups preservation -/

theorem foldl_preserve {β : Type} (P : Inventory → Prop)
    (f : Inventory → β → Inventory)
    (hstep : ∀ i b, P i → P (f i b)) :
    ∀ (l : List β) (i : Inventory), P i → P (l.foldl f i) := by
  intro l
  induction l with
  | nil => exact fun i h => h
  | cons a rest ih => exact fun i h => ih (f i a) (hstep i a h)

theorem processGroups_preserve (P : Inventory → Prop)
    (hstep : ∀ i gn hn, P i → P (processGroupHost i gn hn)) :
    ∀ (entries : List (String × GroupData)) (i : Inventory),
      P i → P (processGroups entries i) := by
  intro entries
  induction entries with
  | nil => exact fun i h => h
  | cons p rest ih =>
      intro i h
      obtain ⟨gn, gd⟩ := p
      exact ih _ (foldl_preserve P _ (fun j hn hp => hstep j gn hn hp)
        (gd.hosts.getD []) i h)

theorem innerFold_establish (gname : String) (l : List String) :
    ∀ (inv : Inventory) (H : String),
    (∃ h, dictLookup inv.hosts H = some h) → HostsHaveGroups inv → H ∈ l →
    hostHasGroup (l.foldl (fun i hn => processGroupHost i gname hn) inv)
      H gname ∧
    groupHasHost (l.foldl (fun i hn => processGroupHost i gname hn) inv)
      H gname := by
  induction l with
  | nil =>
      intro inv H _ _ hmem
      exact absurd hmem (List.not_mem_nil H)
  | cons a rest ih =>
      intro inv H hH hinv hmem
      rcases List.mem_cons.mp hmem with h1 | h1
      · subst h1
        obtain ⟨h, hl⟩ := hH
        have hest := processGroupHost_establish inv gname H h hl hinv
        exact foldl_preserve
          (fun i => hostHasGroup i H gname ∧ groupHasHost i H gname)
          (fun i hn => processGroupHost i gname hn)
          (fun i hn hp =>
            ⟨processGroupHost_hostHasGroup i gname hn H gname hp.1,
             processGroupHost_groupHasHost i gname hn H gname hp.2⟩)
          rest (processGroupHost inv gname H) hest
      · obtain ⟨h, hl⟩ := hH
        obtain ⟨h', hl', _⟩ := processGroupHost_hosts_mono inv gname a H h hl
        exact ih (processGroupHost inv gname a) H ⟨h', hl'⟩
          (processGroupHost_HostsHaveGroups inv gname a hinv) h1

theorem processGroups_establish (entries : List (String × GroupData)) :
    ∀ (inv : Inventory) (H G : String) (gd : GroupData),
    (G, gd) ∈ entries → H ∈ gd.hosts.getD [] →
    (∃ h, dictLookup inv.hosts H = some h) → HostsHaveGroups inv →
    hostHasGroup (processGroups entries inv) H G ∧
    groupHasHost (processGroups entries inv) H G := by
  induction entries with
  | nil =>
      intro inv H G gd hmem _ _ _
      exact absurd hmem (List.not_mem_nil (G, gd))
  | cons p rest ih =>
      intro inv H G gd hmem hHn hH hinv
      obtain ⟨gn, gdata⟩ := p
      rcases List.mem_cons.mp hmem with h1 | h1
      · have hG : G = gn := congrArg Prod.fst h1
        have hgd : gd = gdata := congrArg Prod.snd h1
        subst hG
        have hHn' : H ∈ gdata.hosts.getD [] := by rw [← hgd]; exact hHn
        have hest := innerFold_establish G (gdata.hosts.getD []) inv H hH
          hinv hHn'
        exact processGroups_preserve
          (fun i => hostHasGroup i H G ∧ groupHasHost i H G)
          (fun i gn2 hn2 hp =>
            ⟨processGroupHost_hostHasGroup i gn2 hn2 H G hp.1,
             processGroupHost_groupHasHost i gn2 hn2 H G hp.2⟩)
          rest _ hest
      · have hH2 : ∃ h, dictLookup
            ((gdata.hosts.getD []).foldl
              (fun i hn => processGroupHost i gn hn) inv).hosts H = some h := by
          obtain ⟨h, hl⟩ := hH
          have := foldl_preserve
            (fun i => ∃ hh, dictLookup i.hosts H = some hh)
            (fun i hn => processGroupHost i gn hn)
            (fun i hn hp => by
              obtain ⟨hh, hhl⟩ := hp
              obtain ⟨h', hl', _⟩ := processGroupHost_hosts_mono i gn hn H hh hhl
              exact ⟨h', hl'⟩)
            (gdata.hosts.getD []) inv ⟨h, hl⟩
          exact this
        have hinv2 := foldl_preserve HostsHaveGroups
          (fun i hn => processGroupHost i gn hn)
          (fun i hn hp => processGroupHost_HostsHaveGroups i gn hn hp)
          (gdata.hosts.getD []) inv hinv
        exact ih _ H G gd h1 hHn hH2 hinv2

/-! ## from_yaml decomposition and misc lemmas -/

theorem from_yaml_ok (doc : Document) (inv : Inventory)
    (h : Inventory.from_yaml doc = .ok inv) :
    ∃ inv1, loadHosts (doc.hosts.getD []) Inventory.empty = .ok inv1 ∧
      inv = processGroups (doc.groups.getD []) inv1 := by
  unfold Inventory.from_yaml at h
  cases hl : loadHosts (doc.hosts.getD []) Inventory.empty with
  | error e => rw [hl] at h; exact absurd h (by simp)
  | ok inv1 =>
      rw [hl] at h
      exact ⟨inv1, rfl, (Except.ok.injEq .. ▸ h).symm⟩

theorem from_dict_groups (hd : HostData) (host : Host)
    (h : Host.from_dict hd = .ok host) : host.groups = hd.groups.getD [] := by
  unfold Host.from_dict at h
  cases hh : hd.hostname with
  | none => rw [hh] at h; cases hu : hd.username <;> rw [hu] at h <;> simp at h
  | some hn =>
      rw [hh] at h
      cases hu : hd.username with
      | none => rw [hu] at h; simp at h
      | some un =>
          rw [hu] at h
          simp at h
          rw [← h]

theorem lookupAll_ok (hosts : List (String × Host)) (ns : List String)
    (hall : ∀ n ∈ ns, ∃ h, dictLookup hosts n = some h) :
    ∃ l, lookupAll hosts ns = .ok l ∧
      ∀ n h, n ∈ ns → dictLookup hosts n = some h → h ∈ l := by
  induction ns with
  | nil => exact ⟨[], rfl, fun n h hmem => absurd hmem (List.not_mem_nil n)⟩
  | cons a rest ih =>
      obtain ⟨ha, hla⟩ := hall a (List.mem_cons_self a rest)
      obtain ⟨l, hl, hmem⟩ :=
        ih (fun n hn => hall n (List.mem_cons_of_mem a hn))
      refine ⟨ha :: l, by unfold lookupAll; rw [hla, hl], ?_⟩
      intro n h hn hlook
      rcases List.mem_cons.mp hn with h1 | h1
      · subst h1
        rw [hla] at hlook
        have heq : ha = h := Option.some.injEq .. ▸ hlook
        rw [← heq]
        exact List.mem_cons_self ha l
      · exact List.mem_cons_of_mem ha (hmem n h h1 hlook)

/-! ## Claim theorems: inventory -/

/-- C1: for every inventory document describing host H in group G — whether
G appears in H's own `groups` field or H is listed under G in the top-level
`groups` section — the loaded inventory satisfies both directions of
membership: `get_host H` succeeds with a record whose group list contains G,
and `get_group_hosts G` succeeds with a list containing that record.
(The Nodup hypothesis encodes that a YAML mapping cannot repeat a key.) -/
theorem c1_round_trip_membership (doc : Document) (inv : Inventory)
    (H G : String)
    (hnd : ((doc.hosts.getD []).map Prod.fst).Nodup)
    (hok : Inventory.from_yaml doc = .ok inv)
    (hdesc :
      (∃ hd, (H, hd) ∈ doc.hosts.getD [] ∧ G ∈ hd.groups.getD []) ∨
      (∃ hd gd, (H, hd) ∈ doc.hosts.getD [] ∧ (G, gd) ∈ doc.groups.getD [] ∧
        H ∈ gd.hosts.getD [])) :
    ∃ h l, inv.get_host H = .ok h ∧ G ∈ h.groups ∧
      inv.get_group_hosts G = .ok l ∧ h ∈ l := by
  obtain ⟨inv1, hlh, hinv⟩ := from_yaml_ok doc inv hok
  subst hinv
  have hinv1 := loadHosts_invariants (doc.hosts.getD []) Inventory.empty inv1
    hlh empty_HostsHaveGroups empty_GroupMembersExist
  have hlink : hostHasGroup (processGroups (doc.groups.getD []) inv1) H G ∧
      groupHasHost (processGroups (doc.groups.getD []) inv1) H G := by
    rcases hdesc with ⟨hd, hmem, hG⟩ | ⟨hd, gd, hmem, hgmem, hHn⟩
    · obtain ⟨host, hfd, hlook⟩ := loadHosts_mem (doc.hosts.getD []) H hd
        Inventory.empty inv1 hnd hmem hlh
      have hG' : G ∈ host.groups := by
        rw [from_dict_groups hd host hfd]; exact hG
      have hest : hostHasGroup inv1 H G ∧ groupHasHost inv1 H G :=
        ⟨⟨host, hlook, hG'⟩, hinv1.1 H host hlook G hG'⟩
      exact processGroups_preserve
        (fun i => hostHasGroup i H G ∧ groupHasHost i H G)
        (fun i gn hn hp =>
          ⟨processGroupHost_hostHasGroup i gn hn H G hp.1,
           processGroupHost_groupHasHost i gn hn H G hp.2⟩)
        (doc.groups.getD []) inv1 hest
    · obtain ⟨host, _, hlook⟩ := loadHosts_mem (doc.hosts.getD []) H hd
        Inventory.empty inv1 hnd hmem hlh
      exact processGroups_establish (doc.groups.getD []) inv1 H G gd hgmem
        hHn ⟨host, hlook⟩ hinv1.1
  have hgme : GroupMembersExist (processGroups (doc.groups.getD []) inv1) :=
    processGroups_preserve GroupMembersExist
      (fun i gn hn hp => processGroupHost_GroupMembersExist i gn hn hp)
      (doc.groups.getD []) inv1 hinv1.2
  obtain ⟨⟨h, hhl, hhg⟩, ⟨ns, hns, hnsmem⟩⟩ := hlink
  obtain ⟨l, hlook, hmem⟩ := lookupAll_ok _ ns (hgme G ns hns)
  refine ⟨h, l, ?_, hhg, ?_, hmem H h hnsmem hhl⟩
  · unfold Inventory.get_host; rw [hhl]
  · unfold Inventory.get_group_hosts; rw [hns]; exact hlook

/-- Witness for C1 at a concrete document. -/
theorem c1_round_trip_membership_witness :
    ((docWit.hosts.getD []).map Prod.fst).Nodup ∧
    Inventory.from_yaml docWit = .ok invWit ∧
    (∃ h l, invWit.get_host "web1" = .ok h ∧ "webservers" ∈ h.groups ∧
      invWit.get_group_hosts "webservers" = .ok l ∧ h ∈ l) :=
  ⟨by decide, by rfl,
   c1_round_trip_membership docWit invWit "web1" "webservers" (by decide)
     (by rfl) (.inl ⟨hdWit, by decide, by decide⟩)⟩

/-- C9: on an inventory whose host map lacks `hname` and whose group map
lacks `gname`, `get_host` and `get_group_hosts` both fail with the
`InventoryError` not-found message. (Both operations are pure functions of
the inventory in this embedding, as in the source: they read `self.hosts` /
`self.groups` and never assign, so neither call mutates the inventory.) -/
theorem c9_lookup_not_found (inv : Inventory) (hname gname : String)
    (h1 : dictLookup inv.hosts hname = none)
    (h2 : dictLookup inv.groups gname = none) :
    inv.get_host hname = .error ("Host not found: " ++ hname) ∧
    inv.get_group_hosts gname = .error ("Group not found: " ++ gname) := by
  constructor
  · unfold Inventory.get_host; rw [h1]
  · unfold Inventory.get_group_hosts; rw [h2]

/-- Witness for C9 on a concrete inventory. -/
theorem c9_lookup_not_found_witness :
    dictLookup invWit.hosts "missing" = none ∧
    dictLookup invWit.groups "missing" = none ∧
    (invWit.get_host "missing" = .error ("Host not found: " ++ "missing") ∧
     invWit.get_group_hosts "missing" =
       .error ("Group not found: " ++ "missing")) :=
  ⟨by decide, by decide,
   c9_lookup_not_found invWit "missing" "missing" (by decide) (by decide)⟩

/-- C6: a document with a host entry missing `hostname` or `username` makes
`from_yaml` fail with `InventoryError` (the only failure channel the code
has: its `except` clause re-raises everything as `InventoryError`). -/
theorem c6_missing_required_field (doc : Document) (H : String)
    (hd : HostData) (hmem : (H, hd) ∈ doc.hosts.getD [])
    (hmiss : hd.hostname = none ∨ hd.username = none) :
    ∃ e, Inventory.from_yaml doc = .error e := by
  have hbad : ∀ h, Host.from_dict hd ≠ .ok h := by
    intro h hcontra
    unfold Host.from_dict at hcontra
    rcases hmiss with hm | hm
    · rw [hm] at hcontra
      cases hu : hd.username <;> rw [hu] at hcontra <;> simp at hcontra
    · rw [hm] at hcontra
      cases hh : hd.hostname <;> rw [hh] at hcontra <;> simp at hcontra
  obtain ⟨e, he⟩ := loadHosts_error (doc.hosts.getD []) H hd Inventory.empty
    hmem hbad
  exact ⟨"Failed to load inventory: " ++ e,
    by unfold Inventory.from_yaml; rw [he]⟩

/-- Witness for C6 on a concrete document. -/
theorem c6_missing_required_field_witness :
    ("web1", hdBadWit) ∈ docBadWit.hosts.getD [] ∧
    hdBadWit.username = none ∧
    (∃ e, Inventory.from_yaml docBadWit = .error e) :=
  ⟨by decide, by decide,
   c6_missing_required_field docBadWit "web1" hdBadWit (by decide)
     (.inr (by decide))⟩

/-- C8: a group entry referencing a host name absent from the document's
host entries loads without error (validity of the host entries is all that
success requires), and the unknown name is silently skipped: it gets no
host record and appears in no group's member list. -/
theorem c8_unknown_group_host_skipped (doc : Document) (X : String)
    (hvalid : ∀ p ∈ doc.hosts.getD [], ∃ h, Host.from_dict p.2 = .ok h)
    (hX : X ∉ (doc.hosts.getD []).map Prod.fst) :
    ∃ inv, Inventory.from_yaml doc = .ok inv ∧
      dictLookup inv.hosts X = none ∧
      ∀ g ns, dictLookup inv.groups g = some ns → X ∉ ns := by
  obtain ⟨inv1, hlh⟩ :=
    loadHosts_ok_of_valid (doc.hosts.getD []) Inventory.empty hvalid
  have hnone1 : dictLookup inv1.hosts X = none := by
    rw [loadHosts_preserve_lookup (doc.hosts.getD []) X Inventory.empty inv1
      hX hlh]
    rfl
  have hnone : dictLookup
      (processGroups (doc.groups.getD []) inv1).hosts X = none :=
    processGroups_preserve (fun i => dictLookup i.hosts X = none)
      (fun i gn hn hp => processGroupHost_hosts_none i gn hn X hp)
      (doc.groups.getD []) inv1 hnone1
  have hgme : GroupMembersExist (processGroups (doc.groups.getD []) inv1) :=
    processGroups_preserve GroupMembersExist
      (fun i gn hn hp => processGroupHost_GroupMembersExist i gn hn hp)
      (doc.groups.getD []) inv1
      (loadHosts_invariants (doc.hosts.getD []) Inventory.empty inv1 hlh
        empty_HostsHaveGroups empty_GroupMembersExist).2
  refine ⟨processGroups (doc.groups.getD []) inv1,
    by unfold Inventory.from_yaml; rw [hlh], hnone, ?_⟩
  intro g ns hns hXmem
  obtain ⟨h, hl⟩ := hgme g ns hns X hXmem
  rw [hnone] at hl
  exact absurd hl (by simp)

/-- Witness for C8 on a concrete document. -/
theorem c8_unknown_group_host_skipped_witness :
    (∀ p ∈ docSkipWit.hosts.getD [], ∃ h, Host.from_dict p.2 = .ok h) ∧
    "ghost" ∉ (docSkipWit.hosts.getD []).map Prod.fst ∧
    (∃ inv, Inventory.from_yaml docSkipWit = .ok inv ∧
      dictLookup inv.hosts "ghost" = none ∧
      ∀ g ns, dictLookup inv.groups g = some ns → "ghost" ∉ ns) :=
  ⟨fun p hp => ⟨hostWit0, by
      have hp2 : p = ("web1", hdWit) := by
        simpa [docSkipWit] using hp
      rw [hp2]
      rfl⟩,
   by decide,
   c8_unknown_group_host_skipped docSkipWit "ghost"
     (fun p hp => ⟨hostWit0, by
        have hp2 : p = ("web1", hdWit) := by
          simpa [docSkipWit] using hp
        rw [hp2]
        rfl⟩)
     (by decide)⟩

/-! ## Executor lemmas -/

theorem executeBody_connects (tr : TransportEnv) (e : Executor) (n : Nat)
    (logs0 : List LogEvent) (c : String) (s : Bool)
    (env : List (String × String)) :
    (executeBody tr e n logs0 c s env).connects = n := by
  simp only [executeBody]
  cases h : tr.execOutcome (Executor.buildCommand c s env) <;> simp [h]

theorem uploadBody_connects (tr : TransportEnv) (e : Executor) (n : Nat)
    (logs0 : List LogEvent) (lp rp : String) (md : Option Nat) :
    (uploadBody tr e n logs0 lp rp md).connects = n := by
  simp only [uploadBody]
  cases h : tr.uploadOutcome lp rp md <;> simp [h]

theorem downloadBody_connects (tr : TransportEnv) (e : Executor) (n : Nat)
    (logs0 : List LogEvent) (rp lp : String) :
    (downloadBody tr e n logs0 rp lp).connects = n := by
  simp only [downloadBody]
  cases h : tr.downloadOutcome rp lp <;> simp [h]

theorem joinSpace_length_ge (x : String) (xs : List String) :
    x.length ≤ (joinSpace (x :: xs)).length := by
  cases xs with
  | nil => simp [joinSpace]
  | cons y ys =>
      simp [joinSpace, String.length_append]
      omega

theorem envString_cons_ne_empty (p : String × String)
    (rest : List (String × String)) : envString (p :: rest) ≠ "" := by
  intro hcontra
  have h1 : (p.1 ++ "=" ++ p.2).length ≤ (envString (p :: rest)).length := by
    simp only [envString, List.map_cons]
    exact joinSpace_length_ge _ _
  rw [hcontra] at h1
  have h5 : ("=" : String).length = 1 := by decide
  have h4 : (p.1 ++ "=" ++ p.2).length = p.1.length + 1 + p.2.length := by
    rw [String.length_append, String.length_append, h5]
  rw [h4] at h1
  have h3 : ("" : String).length = 0 := rfl
  rw [h3] at h1
  omega

theorem buildCommand_eq_spec (c : String) (s : Bool)
    (env : List (String × String)) :
    Executor.buildCommand c s env = specFinalCommand c s env := by
  cases env with
  | nil => rfl
  | cons p rest =>
      simp only [Executor.buildCommand, specFinalCommand]
      rw [if_neg (envString_cons_ne_empty p rest)]

theorem connect_error_eq (tr : TransportEnv) (e : Executor) (m : String)
    (h : tr.connectOutcome e.connectKwargs = .error m) :
    e.connect tr =
      { exec := { e with client := some { connected := false } }
        logs := [⟨.info, "Connecting to " ++ e.hostname ++ " as " ++
            e.username⟩,
          ⟨.error, "Failed to connect to " ++ e.hostname ++ ": " ++ m⟩]
        result := .error ("Connection failed: " ++ m) } := by
  simp [Executor.connect, h]

/-! ## Claim theorems: executor -/

/-- C2: on a connected executor, whenever the transport successfully reports
a result triple for the built command, `execute` returns the record with
stdout and stderr trimmed of leading/trailing whitespace plus the exit
status, raising nothing — also when the status is non-zero; a non-zero
status is reflected solely in a warning-level log entry (warning present
exactly when the status is non-zero). -/
theorem c2_result_and_warning (tr : TransportEnv) (e : Executor)
    (cl : SSHClient) (c : String) (s : Bool) (env : List (String × String))
    (raw : RawResult) (hcl : e.client = some cl)
    (hx : tr.execOutcome (Executor.buildCommand c s env) = .ok raw) :
    (Executor.execute tr e c s env).result =
      .ok ⟨raw.stdout.trim, raw.stderr.trim, raw.status⟩ ∧
    ((∃ ev ∈ (Executor.execute tr e c s env).logs,
        ev.level = LogLevel.warning) ↔ raw.status ≠ 0) := by
  have hex : Executor.execute tr e c s env = executeBody tr e 0 [] c s env := by
    simp [Executor.execute, hcl]
  rw [hex]
  simp only [executeBody]
  rw [hx]
  by_cases hs : raw.status = 0
  · simp [hs]
  · simp [hs]

/-- Witness for C2 on a concrete transport whose commands exit with
status 1. -/
theorem c2_result_and_warning_witness :
    exConnWit.client = some { connected := true } ∧
    trOkWit.execOutcome (Executor.buildCommand "ls" false []) =
      .ok { stdout := " ok ", stderr := "", status := 1 } ∧
    ((Executor.execute trOkWit exConnWit "ls" false []).result =
        .ok ⟨(" ok " : String).trim, ("" : String).trim, 1⟩ ∧
      ((∃ ev ∈ (Executor.execute trOkWit exConnWit "ls" false []).logs,
          ev.level = LogLevel.warning) ↔ (1 : Int) ≠ 0)) :=
  ⟨rfl, rfl,
   c2_result_and_warning trOkWit exConnWit { connected := true } "ls" false
     [] { stdout := " ok ", stderr := "", status := 1 } rfl rfl⟩

/-- C3: the final command string `execute` hands to the transport is built
by prefixing `sudo ` when requested and prefixing the space-joined
`KEY=VALUE` assignments of the env mapping, in insertion order, before the
(possibly sudo-prefixed) command; with empty env and no sudo the command is
sent unchanged. -/
theorem c3_command_construction (tr : TransportEnv) (e : Executor)
    (cl : SSHClient) (c : String) (s : Bool) (env : List (String × String))
    (hcl : e.client = some cl) :
    Executor.buildCommand c s env = specFinalCommand c s env ∧
    (Executor.execute tr e c s env).result =
      (match tr.execOutcome (specFinalCommand c s env) with
        | .ok raw => .ok ⟨raw.stdout.trim, raw.stderr.trim, raw.status⟩
        | .error m => .error ("Execution failed: " ++ m)) ∧
    (env = [] → s = false → Executor.buildCommand c s env = c) := by
  refine ⟨buildCommand_eq_spec c s env, ?_, ?_⟩
  · have hex : Executor.execute tr e c s env =
        executeBody tr e 0 [] c s env := by
      simp [Executor.execute, hcl]
    rw [hex]
    simp only [executeBody]
    rw [← buildCommand_eq_spec c s env]
    cases hx : tr.execOutcome (Executor.buildCommand c s env) with
    | error m => simp
    | ok raw => by_cases hs : raw.status = 0 <;> simp [hs]
  · intro henv hsud
    subst henv
    subst hsud
    rfl

/-- Witness for C3 on concrete inputs. -/
theorem c3_command_construction_witness :
    exConnWit.client = some { connected := true } ∧
    Executor.buildCommand "ls" true [("A", "1")] =
      specFinalCommand "ls" true [("A", "1")] :=
  ⟨rfl, (c3_command_construction trOkWit exConnWit { connected := true }
    "ls" true [("A", "1")] rfl).1⟩

/-- C5: when the transport connect fails, `connect` raises ExecutionError
but leaves `self.client` set (to the SSHClient assigned before the attempt),
so a subsequent `execute`, `upload_file` or `download_file` on the same
instance takes the already-connected branch and performs no further connect
attempt. -/
theorem c5_failed_connect_keeps_handle (tr : TransportEnv) (e : Executor)
    (m : String) (h : tr.connectOutcome e.connectKwargs = .error m) :
    (e.connect tr).result = .error ("Connection failed: " ++ m) ∧
    (e.connect tr).exec.client = some { connected := false } ∧
    (∀ c s env,
      (Executor.execute tr (e.connect tr).exec c s env).connects = 0) ∧
    (∀ lp rp md,
      (Executor.upload_file tr (e.connect tr).exec lp rp md).connects = 0) ∧
    (∀ rp lp,
      (Executor.download_file tr (e.connect tr).exec rp lp).connects = 0) := by
  have hcl : (e.connect tr).exec.client = some { connected := false } := by
    rw [connect_error_eq tr e m h]
  refine ⟨by rw [connect_error_eq tr e m h], hcl, ?_, ?_, ?_⟩
  · intro c s env
    simp [Executor.execute, hcl, executeBody_connects]
  · intro lp rp md
    simp [Executor.upload_file, hcl, uploadBody_connects]
  · intro rp lp
    simp [Executor.download_file, hcl, downloadBody_connects]

/-- Witness for C5 on a transport whose connect fails. -/
theorem c5_failed_connect_keeps_handle_witness :
    trFailWit.connectOutcome exFreshWit.connectKwargs = .error "boom" ∧
    ((exFreshWit.connect trFailWit).result =
        .error ("Connection failed: " ++ "boom") ∧
      (exFreshWit.connect trFailWit).exec.client =
        some { connected := false } ∧
      (Executor.execute trFailWit (exFreshWit.connect trFailWit).exec "x"
        false []).connects = 0) :=
  ⟨rfl,
   ⟨(c5_failed_connect_keeps_handle trFailWit exFreshWit "boom" rfl).1,
    (c5_failed_connect_keeps_handle trFailWit exFreshWit "boom" rfl).2.1,
    (c5_failed_connect_keeps_handle trFailWit exFreshWit "boom"
      rfl).2.2.1 "x" false []⟩⟩

/-- C7: an executor in the disconnected state performs exactly one implicit
connect during `execute` (and if that connect fails the command is never
run: the connect error is what `execute` raises); an already-connected
executor performs none. -/
theorem c7_implicit_connect_count (tr : TransportEnv) (e : Executor)
    (c : String) (s : Bool) (env : List (String × String)) :
    (e.client = none → (Executor.execute tr e c s env).connects = 1 ∧
      (∀ m, (e.connect tr).result = .error m →
        (Executor.execute tr e c s env).result = .error m)) ∧
    (∀ cl, e.client = some cl →
      (Executor.execute tr e c s env).connects = 0) := by
  constructor
  · intro hc
    cases hr : (e.connect tr).result with
    | error m =>
        have hex : Executor.execute tr e c s env =
            { exec := (e.connect tr).exec, connects := 1
              logs := (e.connect tr).logs, result := .error m } := by
          simp [Executor.execute, hc, hr]
        constructor
        · rw [hex]
        · intro m' hm'
          have heq : m = m' := Except.error.injEq .. ▸ hm'
          rw [hex, ← heq]
    | ok u =>
        have hex : Executor.execute tr e c s env =
            executeBody tr (e.connect tr).exec 1 (e.connect tr).logs
              c s env := by
          simp [Executor.execute, hc, hr]
        constructor
        · rw [hex, executeBody_connects]
        · intro m' hm'
          exact absurd hm' (by simp)
  · intro cl hcl
    have hex : Executor.execute tr e c s env =
        executeBody tr e 0 [] c s env := by
      simp [Executor.execute, hcl]
    rw [hex, executeBody_connects]

/-- Witness for C7: a fresh executor connects once, a connected one not at
all. -/
theorem c7_implicit_connect_count_witness :
    exFreshWit.client = none ∧
    (Executor.execute trOkWit exFreshWit "ls" false []).connects = 1 ∧
    exConnWit.client = some { connected := true } ∧
    (Executor.execute trOkWit exConnWit "ls" false []).connects = 0 :=
  ⟨rfl,
   ((c7_implicit_connect_count trOkWit exFreshWit "ls" false []).1 rfl).1,
   rfl,
   (c7_implicit_connect_count trOkWit exConnWit "ls" false []).2
     { connected := true } rfl⟩

/-- C10: `close` on a connected executor clears the session handle
(connected to disconnected); on a disconnected executor it does nothing and
raises nothing, so `close` followed by `close` equals a single `close`. -/
theorem c10_close_idempotent (e : Executor) :
    (∀ cl, e.client = some cl → (e.close).1.client = none) ∧
    (e.client = none → e.close = (e, [])) ∧
    (e.close).1.close = ((e.close).1, []) := by
  cases hc : e.client with
  | none =>
      refine ⟨?_, ?_, ?_⟩
      · intro cl hcl
        exact absurd hcl (by simp)
      · intro _
        simp [Executor.close, hc]
      · simp [Executor.close, hc]
  | some cl =>
      have h1 : e.close = ({ e with client := none },
          [⟨.info, "Closed connection to " ++ e.hostname⟩]) := by
        simp [Executor.close, hc]
      refine ⟨?_, ?_, ?_⟩
      · intro cl2 hcl2
        rw [h1]
      · intro hcl
        exact absurd hcl (by simp)
      · rw [h1]
        simp [Executor.close]

/-- Witness for C10 on concrete executors. -/
theorem c10_close_idempotent_witness :
    (exConnWit.close).1.client = none ∧
    exFreshWit.close = (exFreshWit, []) ∧
    (exConnWit.close).1.close = ((exConnWit.close).1, []) :=
  ⟨(c10_close_idempotent exConnWit).1 { connected := true } rfl,
   (c10_close_idempotent exFreshWit).2.1 rfl,
   (c10_close_idempotent exConnWit).2.2⟩

end Catalyst
